import Mathlib

/-!
# A shallow embedding of the `rust-goto` VM (src/src/main.rs)

The source is a small register-based bytecode VM with three engine variants
(`run_central`, `run_threaded`, `run_threaded_deep`) that share one opcode
semantics (the Rust macros `exec_one!` and `handle!`, textually expanded at
every dispatch site; the expanded copies in `run_threaded`,
`handle_and_dispatch!` and `run_threaded_deep` are character-for-character
identical to the macro bodies, so one Lean function per macro is a faithful
model).

Modelling conventions:
* `u32` instruction words are `Nat` (values < 2^32 by construction);
* `i64` register values are `Int`; every operation that wraps in Rust
  (`wrapping_add` …) goes through `wrap64`, which lands in `[-2^63, 2^63)`;
* Rust's `/` and `%` on `i64` are truncated division `Int.tdiv` / `Int.tmod`,
  and they panic on overflow (`i64::MIN / -1`, `i64::MIN % -1`) — modelled by
  the `.fault` outcome, as are the panics from out-of-range register indices
  (`regs[i]` with `i ≥ 16`) and the undefined behaviour of
  `code.get_unchecked(pc)` with `pc` out of bounds;
* the engines loop forever on non-halting programs, so each is embedded with
  an explicit fuel argument; running out of fuel yields `.timeout`.
-/

/-- Opcode constants, from `main.rs` lines 21–31. -/
def OP_HALT : Nat := 0

def OP_LOADI : Nat := 1

def OP_ADD : Nat := 2

def OP_SUB : Nat := 3

def OP_MUL : Nat := 4

def OP_DIV : Nat := 5

def OP_MOD : Nat := 6

def OP_INC : Nat := 7

def OP_DEC : Nat := 8

def OP_JMPNZ : Nat := 9

def OP_MOV : Nat := 10

/-- `fn encode(op, dst, a, b) -> u32`: pack four byte fields into one word
(`main.rs` line 34). Callers always pass values < 256 (the fields are `u8`). -/
def encode (op dst a b : Nat) : Nat :=
  op ||| (dst <<< 8) ||| (a <<< 16) ||| (b <<< 24)

/-- `fn imm16(a, b) -> i64`: 16-bit little-endian immediate (`main.rs` line 39). -/
def imm16 (a b : Nat) : Int :=
  ((a ||| (b <<< 8) : Nat) : Int)

/-- Field extraction done by `exec_one!` (`main.rs` lines 49–52):
`op = instr & 0xFF`. -/
def decodeOp (instr : Nat) : Nat := instr &&& 0xFF

/-- `dst = (instr >> 8) & 0xFF`. -/
def decodeDst (instr : Nat) : Nat := (instr >>> 8) &&& 0xFF

/-- `a = (instr >> 16) & 0xFF`. -/
def decodeA (instr : Nat) : Nat := (instr >>> 16) &&& 0xFF

/-- `b = (instr >> 24) & 0xFF`. -/
def decodeB (instr : Nat) : Nat := (instr >>> 24) &&& 0xFF

def NREGS : Nat := 16

/-- Two's-complement wrap into the `i64` range `[-2^63, 2^63)`; the meaning of
Rust's `wrapping_add`/`wrapping_sub`/`wrapping_mul` on values already in
range. -/
def wrap64 (z : Int) : Int :=
  (z + 2 ^ 63) % 2 ^ 64 - 2 ^ 63

/-- The i64 range used throughout: `-2^63 ≤ z < 2^63`. -/
def InI64 (z : Int) : Prop := -(2 ^ 63) ≤ z ∧ z < 2 ^ 63

instance (z : Int) : Decidable (InI64 z) := by
  unfold InI64; infer_instance

/-- VM state: the 16-slot register file (a length-16 list of i64 values) and
the program counter. -/
structure VMState where
  regs : List Int
  pc : Nat
  deriving DecidableEq, Repr

/-- Result of handling one decoded instruction (the Rust `handle!` macro):
`ret` models the `return` statements (HALT's `return regs[dst]` and the
catch-all `return -1`), `fault` models a panic or UB, `next` continues with
the updated state. -/
inductive StepRes where
  | ret (v : Int)
  | fault
  | next (s : VMState)
  deriving DecidableEq, Repr

/-- Checked read of `regs[i]` — Rust's array indexing panics for `i ≥ 16`. -/
def readReg (regs : List Int) (i : Nat) : Option Int :=
  regs[i]?

/-- Checked write of `regs[i] = v` — panics for `i ≥ 16`. -/
def writeReg (regs : List Int) (i : Nat) (v : Int) : Option (List Int) :=
  if i < regs.length then some (regs.set i v) else none

/-- The `handle!` macro (`main.rs` lines 59–84): apply one decoded
instruction's effect.  `pc` is the already-incremented program counter
(`exec_one!` increments before `handle!` runs).  The same match body appears
textually (macro-expanded) in `run_central`, in every tail of `run_threaded`,
in `handle_and_dispatch!`, and in `run_threaded_deep`; all copies are
identical, so this single function models them all.

`i64::MIN / -1` and `i64::MIN % -1` overflow and panic in Rust (`/` and `%`
are not wrapping), hence the `.fault` arms in `OP_DIV` / `OP_MOD`. -/
def handle (regs : List Int) (pc : Nat) (op dst a b : Nat) : StepRes :=
  if op = OP_HALT then
    match readReg regs dst with
    | some v => .ret v
    | none => .fault
  else if op = OP_LOADI then
    match writeReg regs dst (imm16 a b) with
    | some r => .next ⟨r, pc⟩
    | none => .fault
  else if op = OP_ADD then
    match readReg regs a, readReg regs b with
    | some x, some y =>
      match writeReg regs dst (wrap64 (x + y)) with
      | some r => .next ⟨r, pc⟩
      | none => .fault
    | _, _ => .fault
  else if op = OP_SUB then
    match readReg regs a, readReg regs b with
    | some x, some y =>
      match writeReg regs dst (wrap64 (x - y)) with
      | some r => .next ⟨r, pc⟩
      | none => .fault
    | _, _ => .fault
  else if op = OP_MUL then
    match readReg regs a, readReg regs b with
    | some x, some y =>
      match writeReg regs dst (wrap64 (x * y)) with
      | some r => .next ⟨r, pc⟩
      | none => .fault
    | _, _ => .fault
  else if op = OP_DIV then
    match readReg regs a, readReg regs b with
    | some x, some d =>
      if d ≠ 0 then
        if x = -(2 ^ 63) ∧ d = -1 then .fault
        else
          match writeReg regs dst (Int.tdiv x d) with
          | some r => .next ⟨r, pc⟩
          | none => .fault
      else
        match writeReg regs dst 0 with
        | some r => .next ⟨r, pc⟩
        | none => .fault
    | _, _ => .fault
  else if op = OP_MOD then
    match readReg regs a, readReg regs b with
    | some x, some d =>
      if d ≠ 0 then
        if x = -(2 ^ 63) ∧ d = -1 then .fault
        else
          match writeReg regs dst (Int.tmod x d) with
          | some r => .next ⟨r, pc⟩
          | none => .fault
      else
        match writeReg regs dst 0 with
        | some r => .next ⟨r, pc⟩
        | none => .fault
    | _, _ => .fault
  else if op = OP_INC then
    match readReg regs dst with
    | some x =>
      match writeReg regs dst (wrap64 (x + 1)) with
      | some r => .next ⟨r, pc⟩
      | none => .fault
    | none => .fault
  else if op = OP_DEC then
    match readReg regs dst with
    | some x =>
      match writeReg regs dst (wrap64 (x - 1)) with
      | some r => .next ⟨r, pc⟩
      | none => .fault
    | none => .fault
  else if op = OP_JMPNZ then
    match readReg regs dst with
    | some x =>
      if x ≠ 0 then .next ⟨regs, (imm16 a b).toNat⟩ else .next ⟨regs, pc⟩
    | none => .fault
  else if op = OP_MOV then
    match readReg regs a with
    | some x =>
      match writeReg regs dst x with
      | some r => .next ⟨r, pc⟩
      | none => .fault
    | none => .fault
  else
    .ret (-1)

/-- One fetch–decode–execute step: the `exec_one!` macro (fetch the word at
`pc` — `get_unchecked`, UB when out of bounds — and increment `pc`) followed
by `handle!`. -/
def stepOnce (code : List Nat) (s : VMState) : StepRes :=
  match code[s.pc]? with
  | some instr =>
      handle s.regs (s.pc + 1) (decodeOp instr) (decodeDst instr)
        (decodeA instr) (decodeB instr)
  | none => .fault

/-- Final outcome of an engine run under a fuel bound. -/
inductive Outcome where
  | value (v : Int)
  | fault
  | timeout
  deriving DecidableEq, Repr

/-- `run_central`'s loop (`main.rs` lines 124–127): one `exec_one!` +
`handle!` per iteration. -/
def centralLoop (code : List Nat) : Nat → VMState → Outcome
  | 0, _ => .timeout
  | fuel + 1, s =>
    match stepOnce code s with
    | .ret v => .value v
    | .fault => .fault
    | .next s' => centralLoop code fuel s'

/-- `run_threaded`'s loop (`main.rs` lines 147–205): the outer match executes
one instruction (its arm bodies are verbatim copies of `handle!`'s arms),
then every non-terminal arm runs a second `exec_one!` + `handle!` before
control returns to the outer loop. -/
def threadedLoop (code : List Nat) : Nat → VMState → Outcome
  | 0, _ => .timeout
  | fuel + 1, s =>
    match stepOnce code s with
    | .ret v => .value v
    | .fault => .fault
    | .next s1 =>
      match stepOnce code s1 with
      | .ret v => .value v
      | .fault => .fault
      | .next s2 => threadedLoop code fuel s2

/-- `run_threaded_deep`'s loop (`main.rs` lines 247–307): outer dispatch,
then `handle_and_dispatch!` (one more effect plus a third `exec_one!` +
`handle!`) — three instructions per outer iteration. -/
def threadedDeepLoop (code : List Nat) : Nat → VMState → Outcome
  | 0, _ => .timeout
  | fuel + 1, s =>
    match stepOnce code s with
    | .ret v => .value v
    | .fault => .fault
    | .next s1 =>
      match stepOnce code s1 with
      | .ret v => .value v
      | .fault => .fault
      | .next s2 =>
        match stepOnce code s2 with
        | .ret v => .value v
        | .fault => .fault
        | .next s3 => threadedDeepLoop code fuel s3

/-- The zero-initialized register file and `pc = 0` every engine starts
from (`main.rs` lines 121–122, 144–145, 244–245). -/
def initState : VMState :=
  ⟨List.replicate NREGS 0, 0⟩

/-- `fn run_central(code) -> i64`, with explicit fuel. -/
def run_central (code : List Nat) (fuel : Nat) : Outcome :=
  centralLoop code fuel initState

/-- `fn run_threaded(code) -> i64`, with explicit fuel (outer iterations). -/
def run_threaded (code : List Nat) (fuel : Nat) : Outcome :=
  threadedLoop code fuel initState

/-- `fn run_threaded_deep(code) -> i64`, with explicit fuel. -/
def run_threaded_deep (code : List Nat) (fuel : Nat) : Outcome :=
  threadedDeepLoop code fuel initState

/-- `fn make_program(n: u16) -> Vec<u32>` (`main.rs` lines 94–112).  The
source splits `n` into `nh = n & 0xFF` (low byte, despite its name) and
`nl = (n >> 8) & 0xFF` (high byte) and passes them low-byte-first to
`LOADI`. -/
def make_program (n : Nat) : List Nat :=
  let nh := n &&& 0xFF
  let nl := (n >>> 8) &&& 0xFF
  [ encode OP_LOADI 0 nh nl,   -- r0 = N
    encode OP_LOADI 1 0 0,     -- r1 = 0 (accumulator)
    encode OP_LOADI 2 1 0,     -- r2 = 1
    -- loop: (pc = 3)
    encode OP_MOV 3 0 0,       -- r3 = r0
    encode OP_MUL 4 3 3,       -- r4 = r3*r3
    encode OP_SUB 5 4 3,       -- r5 = r4 - r3
    encode OP_ADD 5 5 2,       -- r5 = r5 + 1
    encode OP_ADD 1 1 5,       -- r1 += r5
    encode OP_DEC 0 0 0,       -- r0--
    encode OP_JMPNZ 0 3 0,     -- if r0 != 0 goto 3
    encode OP_HALT 1 0 0 ]     -- return r1

/-- r0 = 32768; r0 = r0², twice (2^60); r1 = 8; r0 = r0·r1 (2^63 wraps to
i64::MIN); r2 = 0; r2−− (−1); r3 = r0 / r2: panics in Rust. -/
def divOverflowProgram : List Nat :=
  [ encode OP_LOADI 0 0 128,
    encode OP_MUL 0 0 0,
    encode OP_MUL 0 0 0,
    encode OP_LOADI 1 8 0,
    encode OP_MUL 0 0 1,
    encode OP_LOADI 2 0 0,
    encode OP_DEC 2 0 0,
    encode OP_DIV 3 0 2,
    encode OP_HALT 3 0 0 ]

/-- Same, with `MOD` in place of `DIV`: `i64::MIN % -1` also panics. -/
def modOverflowProgram : List Nat :=
  [ encode OP_LOADI 0 0 128,
    encode OP_MUL 0 0 0,
    encode OP_MUL 0 0 0,
    encode OP_LOADI 1 8 0,
    encode OP_MUL 0 0 1,
    encode OP_LOADI 2 0 0,
    encode OP_DEC 2 0 0,
    encode OP_MOD 3 0 2,
    encode OP_HALT 3 0 0 ]

/-- The register file at the loop head (pc 3): counter in r0, accumulator in
r1, the constant 1 in r2, scratch in r3–r5, r6–r15 never touched. -/
def lh (c acc x3 x4 x5 : Int) : VMState :=
  ⟨[c, acc, 1, x3, x4, x5, 0, 0, 0, 0, 0, 0, 0, 0, 0, 0], 3⟩

/-- One loop body's contribution to the accumulator, with full wrapping:
`r5 = ((c*c) wrapped − c) wrapped + 1 wrapped`. -/
def bodyF (c : Int) : Int :=
  wrap64 (wrap64 (wrap64 (c * c) - c) + 1)

/-- `make_program`, with every instruction word of the fixed loop body
evaluated to its numeral (only the first word depends on `n`). -/
def workloadCode (n : Nat) : List Nat :=
  [encode OP_LOADI 0 (n &&& 0xFF) ((n >>> 8) &&& 0xFF), 257, 66049, 778,
   50529284, 50595075, 33883394, 83951874, 8, 196617, 256]

/-- One term of the workload: `i² − i + 1`. -/
def g (j : Nat) : Int := (j : Int) * j - j + 1

/-- `S n = Σ_{i=1..n} (i² − i + 1)`. -/
def S : Nat → Int
  | 0 => 0
  | n + 1 => S n + g (n + 1)

/-- `Σ_{i=1..n} i²`. -/
def Tsq : Nat → Int
  | 0 => 0
  | n + 1 => Tsq n + ((n : Int) + 1) * ((n : Int) + 1)

/-- `Σ_{i=1..n} i`. -/
def Ulin : Nat → Int
  | 0 => 0
  | n + 1 => Ulin n + ((n : Int) + 1)

/-- The closed form named by the spec:
`N(N+1)(2N+1)/6 − N(N+1)/2 + N` (exact integer divisions). -/
def closedForm (n : Nat) : Int :=
  (n : Int) * ((n : Int) + 1) * (2 * (n : Int) + 1) / 6
    - (n : Int) * ((n : Int) + 1) / 2 + (n : Int)

/-- Accumulator evolution over `k` remaining iterations, counter starting
at `wrap64 k`. -/
def wIter : Nat → Int → Int
  | 0, acc => acc
  | k + 1, acc => wIter k (wrap64 (acc + bodyF (wrap64 ((k + 1 : Nat) : Int))))

/-! ## Bitwise facts about the instruction codec -/

theorem shiftRight_lor (x y n : Nat) : (x ||| y) >>> n = x >>> n ||| y >>> n := by
  apply Nat.eq_of_testBit_eq
  intro i
  simp [Nat.testBit_shiftRight, Nat.testBit_or]

theorem mask255_eq_mod (x : Nat) : x &&& 255 = x % 256 := by
  have h := Nat.and_pow_two_sub_one_eq_mod x 8
  norm_num at h
  exact h

theorem mask255_lor (x y : Nat) : (x ||| y) &&& 255 = (x &&& 255) ||| (y &&& 255) := by
  rw [Nat.land_comm, Nat.and_or_distrib_left, Nat.land_comm 255 x, Nat.land_comm 255 y]

/-- Bit-packing a value below `2^k` with a value shifted up by `k` is plain
addition: the fields do not overlap. -/
theorem lor_shl_eq_add (x y k : Nat) (h : x < 2 ^ k) :
    x ||| (y <<< k) = x + y * 2 ^ k := by
  have hdiv : (x ||| y <<< k) / 2 ^ k = y := by
    rw [← Nat.shiftRight_eq_div_pow, shiftRight_lor, Nat.shiftLeft_shiftRight,
      Nat.shiftRight_eq_div_pow, Nat.div_eq_of_lt h, Nat.zero_or]
  have hmod : (x ||| y <<< k) % 2 ^ k = x := by
    have hmask := Nat.and_pow_two_sub_one_eq_mod (x ||| y <<< k) k
    rw [← hmask, Nat.land_comm, Nat.and_or_distrib_left,
      Nat.land_comm _ x, Nat.land_comm _ (y <<< k),
      Nat.and_pow_two_sub_one_eq_mod, Nat.and_pow_two_sub_one_eq_mod,
      Nat.mod_eq_of_lt h, Nat.shiftLeft_eq, Nat.mul_mod_left, Nat.or_zero]
  have hdm := Nat.div_add_mod (x ||| y <<< k) (2 ^ k)
  rw [hdiv, hmod] at hdm
  rw [← hdm]
  ring

/-- The packed word, written additively. -/
theorem encode_eq_add (op dst a b : Nat)
    (hop : op < 256) (hdst : dst < 256) (ha : a < 256) (hb : b < 256) :
    encode op dst a b = op + dst * 256 + a * 65536 + b * 16777216 := by
  unfold encode
  rw [lor_shl_eq_add op dst 8 (by omega)]
  rw [lor_shl_eq_add _ a 16 (by norm_num; omega)]
  rw [lor_shl_eq_add _ b 24 (by norm_num; omega)]
  norm_num

/-- The 16-bit immediate, written additively. -/
theorem imm16_eq_add (a b : Nat) (ha : a < 256) :
    imm16 a b = (a : Int) + 256 * b := by
  unfold imm16
  rw [lor_shl_eq_add a b 8 (by omega)]
  push_cast
  ring

theorem decodeOp_encode (op dst a b : Nat)
    (hop : op < 256) (hdst : dst < 256) (ha : a < 256) (hb : b < 256) :
    decodeOp (encode op dst a b) = op := by
  rw [encode_eq_add op dst a b hop hdst ha hb]
  unfold decodeOp
  rw [show (0xFF : Nat) = 255 from rfl, mask255_eq_mod]
  omega

theorem decodeDst_encode (op dst a b : Nat)
    (hop : op < 256) (hdst : dst < 256) (ha : a < 256) (hb : b < 256) :
    decodeDst (encode op dst a b) = dst := by
  rw [encode_eq_add op dst a b hop hdst ha hb]
  unfold decodeDst
  rw [Nat.shiftRight_eq_div_pow, show (0xFF : Nat) = 255 from rfl, mask255_eq_mod]
  norm_num
  omega

theorem decodeA_encode (op dst a b : Nat)
    (hop : op < 256) (hdst : dst < 256) (ha : a < 256) (hb : b < 256) :
    decodeA (encode op dst a b) = a := by
  rw [encode_eq_add op dst a b hop hdst ha hb]
  unfold decodeA
  rw [Nat.shiftRight_eq_div_pow, show (0xFF : Nat) = 255 from rfl, mask255_eq_mod]
  norm_num
  omega

theorem decodeB_encode (op dst a b : Nat)
    (hop : op < 256) (hdst : dst < 256) (ha : a < 256) (hb : b < 256) :
    decodeB (encode op dst a b) = b := by
  rw [encode_eq_add op dst a b hop hdst ha hb]
  unfold decodeB
  rw [Nat.shiftRight_eq_div_pow, show (0xFF : Nat) = 255 from rfl, mask255_eq_mod]
  norm_num
  omega

/-- C9: the instruction codec round-trips without loss: decoding the word
produced by `encode(opcode, dst, a, b)` (extracting bits [0:8), [8:16),
[16:24), [24:32)) recovers exactly the four original fields, and
`imm16(a, b)` equals the non-negative integer `a + 256*b`. -/
theorem c9_codec_roundtrip (op dst a b : Nat)
    (hop : op < 256) (hdst : dst < 256) (ha : a < 256) (hb : b < 256) :
    decodeOp (encode op dst a b) = op ∧
    decodeDst (encode op dst a b) = dst ∧
    decodeA (encode op dst a b) = a ∧
    decodeB (encode op dst a b) = b ∧
    imm16 a b = (a : Int) + 256 * b :=
  ⟨decodeOp_encode op dst a b hop hdst ha hb,
   decodeDst_encode op dst a b hop hdst ha hb,
   decodeA_encode op dst a b hop hdst ha hb,
   decodeB_encode op dst a b hop hdst ha hb,
   imm16_eq_add a b ha⟩

/-! ## Evaluation lemmas for `handle`, one per opcode -/

theorem handle_halt {regs : List Int} {dst : Nat} {v : Int} (pc a b : Nat)
    (hv : regs[dst]? = some v) :
    handle regs pc OP_HALT dst a b = .ret v := by
  unfold handle readReg
  rw [if_pos rfl, hv]

theorem handle_loadi {regs : List Int} {dst : Nat} (pc a b : Nat)
    (h : dst < regs.length) :
    handle regs pc OP_LOADI dst a b = .next ⟨regs.set dst (imm16 a b), pc⟩ := by
  unfold handle writeReg
  rw [if_neg (by decide), if_pos rfl, if_pos h]

theorem handle_add {regs : List Int} {dst a b : Nat} {x y : Int} (pc : Nat)
    (hx : regs[a]? = some x) (hy : regs[b]? = some y) (h : dst < regs.length) :
    handle regs pc OP_ADD dst a b = .next ⟨regs.set dst (wrap64 (x + y)), pc⟩ := by
  unfold handle readReg writeReg
  rw [if_neg (by decide), if_neg (by decide), if_pos rfl, hx, hy]
  simp [h]

theorem handle_sub {regs : List Int} {dst a b : Nat} {x y : Int} (pc : Nat)
    (hx : regs[a]? = some x) (hy : regs[b]? = some y) (h : dst < regs.length) :
    handle regs pc OP_SUB dst a b = .next ⟨regs.set dst (wrap64 (x - y)), pc⟩ := by
  unfold handle readReg writeReg
  rw [if_neg (by decide), if_neg (by decide), if_neg (by decide), if_pos rfl,
    hx, hy]
  simp [h]

theorem handle_mul {regs : List Int} {dst a b : Nat} {x y : Int} (pc : Nat)
    (hx : regs[a]? = some x) (hy : regs[b]? = some y) (h : dst < regs.length) :
    handle regs pc OP_MUL dst a b = .next ⟨regs.set dst (wrap64 (x * y)), pc⟩ := by
  unfold handle readReg writeReg
  rw [if_neg (by decide), if_neg (by decide), if_neg (by decide),
    if_neg (by decide), if_pos rfl, hx, hy]
  simp [h]

theorem handle_div_zero {regs : List Int} {dst a b : Nat} {x : Int} (pc : Nat)
    (hx : regs[a]? = some x) (hd : regs[b]? = some 0) (h : dst < regs.length) :
    handle regs pc OP_DIV dst a b = .next ⟨regs.set dst 0, pc⟩ := by
  unfold handle readReg writeReg
  rw [if_neg (by decide), if_neg (by decide), if_neg (by decide),
    if_neg (by decide), if_neg (by decide), if_pos rfl, hx, hd]
  simp [h]

theorem handle_div {regs : List Int} {dst a b : Nat} {x d : Int} (pc : Nat)
    (hx : regs[a]? = some x) (hd : regs[b]? = some d) (h : dst < regs.length)
    (hdz : d ≠ 0) (hov : ¬(x = -(2 ^ 63) ∧ d = -1)) :
    handle regs pc OP_DIV dst a b = .next ⟨regs.set dst (Int.tdiv x d), pc⟩ := by
  unfold handle readReg writeReg
  rw [if_neg (by decide), if_neg (by decide), if_neg (by decide),
    if_neg (by decide), if_neg (by decide), if_pos rfl, hx, hd]
  simp [h, hdz]
  intro h1 h2
  exact hov ⟨by rw [h1]; norm_num, h2⟩

theorem handle_mod_zero {regs : List Int} {dst a b : Nat} {x : Int} (pc : Nat)
    (hx : regs[a]? = some x) (hd : regs[b]? = some 0) (h : dst < regs.length) :
    handle regs pc OP_MOD dst a b = .next ⟨regs.set dst 0, pc⟩ := by
  unfold handle readReg writeReg
  rw [if_neg (by decide), if_neg (by decide), if_neg (by decide),
    if_neg (by decide), if_neg (by decide), if_neg (by decide), if_pos rfl,
    hx, hd]
  simp [h]

theorem handle_inc {regs : List Int} {dst : Nat} {x : Int} (pc a b : Nat)
    (hx : regs[dst]? = some x) (h : dst < regs.length) :
    handle regs pc OP_INC dst a b = .next ⟨regs.set dst (wrap64 (x + 1)), pc⟩ := by
  unfold handle readReg writeReg
  rw [if_neg (by decide), if_neg (by decide), if_neg (by decide),
    if_neg (by decide), if_neg (by decide), if_neg (by decide),
    if_neg (by decide), if_pos rfl, hx]
  simp [h]

theorem handle_dec {regs : List Int} {dst : Nat} {x : Int} (pc a b : Nat)
    (hx : regs[dst]? = some x) (h : dst < regs.length) :
    handle regs pc OP_DEC dst a b = .next ⟨regs.set dst (wrap64 (x - 1)), pc⟩ := by
  unfold handle readReg writeReg
  rw [if_neg (by decide), if_neg (by decide), if_neg (by decide),
    if_neg (by decide), if_neg (by decide), if_neg (by decide),
    if_neg (by decide), if_neg (by decide), if_pos rfl, hx]
  simp [h]

theorem handle_jmpnz_taken {regs : List Int} {dst : Nat} {x : Int} (pc a b : Nat)
    (hx : regs[dst]? = some x) (hnz : x ≠ 0) :
    handle regs pc OP_JMPNZ dst a b = .next ⟨regs, (imm16 a b).toNat⟩ := by
  unfold handle readReg
  rw [if_neg (by decide), if_neg (by decide), if_neg (by decide),
    if_neg (by decide), if_neg (by decide), if_neg (by decide),
    if_neg (by decide), if_neg (by decide), if_neg (by decide), if_pos rfl, hx]
  simp [hnz]

theorem handle_jmpnz_not_taken {regs : List Int} {dst : Nat} (pc a b : Nat)
    (hx : regs[dst]? = some 0) :
    handle regs pc OP_JMPNZ dst a b = .next ⟨regs, pc⟩ := by
  unfold handle readReg
  rw [if_neg (by decide), if_neg (by decide), if_neg (by decide),
    if_neg (by decide), if_neg (by decide), if_neg (by decide),
    if_neg (by decide), if_neg (by decide), if_neg (by decide), if_pos rfl, hx]
  simp

theorem handle_mov {regs : List Int} {dst a : Nat} {x : Int} (pc b : Nat)
    (hx : regs[a]? = some x) (h : dst < regs.length) :
    handle regs pc OP_MOV dst a b = .next ⟨regs.set dst x, pc⟩ := by
  unfold handle readReg writeReg
  rw [if_neg (by decide), if_neg (by decide), if_neg (by decide),
    if_neg (by decide), if_neg (by decide), if_neg (by decide),
    if_neg (by decide), if_neg (by decide), if_neg (by decide),
    if_neg (by decide), if_pos rfl, hx]
  simp [h]

theorem handle_invalid {op : Nat} (regs : List Int) (pc dst a b : Nat)
    (h : 11 ≤ op) :
    handle regs pc op dst a b = .ret (-1) := by
  unfold handle
  rw [if_neg (by unfold OP_HALT; omega), if_neg (by unfold OP_LOADI; omega),
    if_neg (by unfold OP_ADD; omega), if_neg (by unfold OP_SUB; omega),
    if_neg (by unfold OP_MUL; omega), if_neg (by unfold OP_DIV; omega),
    if_neg (by unfold OP_MOD; omega), if_neg (by unfold OP_INC; omega),
    if_neg (by unfold OP_DEC; omega), if_neg (by unfold OP_JMPNZ; omega),
    if_neg (by unfold OP_MOV; omega)]

/-! ## Basic properties of `wrap64` -/

/-- `wrap64` lands in the i64 range. -/
theorem wrap64_mem (z : Int) : InI64 (wrap64 z) := by
  unfold wrap64 InI64
  have h1 := Int.emod_nonneg (z + 2 ^ 63) (by norm_num : (2 ^ 64 : Int) ≠ 0)
  have h2 := Int.emod_lt_of_pos (z + 2 ^ 63) (by norm_num : (0 : Int) < 2 ^ 64)
  omega

/-- `wrap64` is reduction modulo `2^64`. -/
theorem wrap64_dvd_sub (z : Int) : (2 ^ 64 : Int) ∣ (wrap64 z - z) := by
  unfold wrap64
  have h := Int.emod_add_ediv (z + 2 ^ 63) (2 ^ 64)
  refine ⟨-((z + 2 ^ 63) / 2 ^ 64), ?_⟩
  linarith

/-- On values already in the i64 range, `wrap64` is the identity. -/
theorem wrap64_eq_self {z : Int} (h : InI64 z) : wrap64 z = z := by
  unfold wrap64
  unfold InI64 at h
  rw [Int.emod_eq_of_lt (by omega) (by omega)]
  ring

/-! ## Unfolding lemmas for the three engine loops -/

theorem centralLoop_ret {code : List Nat} {s : VMState} {v : Int} (f : Nat)
    (h : stepOnce code s = .ret v) :
    centralLoop code (f + 1) s = .value v := by
  simp only [centralLoop]
  rw [h]

theorem centralLoop_next {code : List Nat} {s s' : VMState} (f : Nat)
    (h : stepOnce code s = .next s') :
    centralLoop code (f + 1) s = centralLoop code f s' := by
  simp only [centralLoop]
  rw [h]

theorem threadedLoop_ret {code : List Nat} {s : VMState} {v : Int} (f : Nat)
    (h : stepOnce code s = .ret v) :
    threadedLoop code (f + 1) s = .value v := by
  simp only [threadedLoop]
  rw [h]

theorem threadedDeepLoop_ret {code : List Nat} {s : VMState} {v : Int} (f : Nat)
    (h : stepOnce code s = .ret v) :
    threadedDeepLoop code (f + 1) s = .value v := by
  simp only [threadedDeepLoop]
  rw [h]

theorem centralLoop_fault {code : List Nat} {s : VMState} (f : Nat)
    (h : stepOnce code s = .fault) :
    centralLoop code (f + 1) s = .fault := by
  simp only [centralLoop]
  rw [h]

/-- One outer iteration of the threaded engine executes exactly two
instructions, so its loop with fuel `f` agrees with the central loop with
fuel `2*f`. -/
theorem threadedLoop_eq_centralLoop (code : List Nat) :
    ∀ f s, threadedLoop code f s = centralLoop code (2 * f) s := by
  intro f
  induction f with
  | zero => intro s; rfl
  | succ f ih =>
    intro s
    rw [show 2 * (f + 1) = 2 * f + 1 + 1 from by ring]
    cases hs1 : stepOnce code s with
    | ret v => simp only [threadedLoop, centralLoop, hs1]
    | fault => simp only [threadedLoop, centralLoop, hs1]
    | next s1 =>
      cases hs2 : stepOnce code s1 with
      | ret v => simp only [threadedLoop, centralLoop, hs1, hs2]
      | fault => simp only [threadedLoop, centralLoop, hs1, hs2]
      | next s2 =>
        simp only [threadedLoop, centralLoop, hs1, hs2]
        exact ih s2

/-- One outer iteration of the deep-threaded engine executes exactly three
instructions. -/
theorem threadedDeepLoop_eq_centralLoop (code : List Nat) :
    ∀ f s, threadedDeepLoop code f s = centralLoop code (3 * f) s := by
  intro f
  induction f with
  | zero => intro s; rfl
  | succ f ih =>
    intro s
    rw [show 3 * (f + 1) = 3 * f + 1 + 1 + 1 from by ring]
    cases hs1 : stepOnce code s with
    | ret v => simp only [threadedDeepLoop, centralLoop, hs1]
    | fault => simp only [threadedDeepLoop, centralLoop, hs1]
    | next s1 =>
      cases hs2 : stepOnce code s1 with
      | ret v => simp only [threadedDeepLoop, centralLoop, hs1, hs2]
      | fault => simp only [threadedDeepLoop, centralLoop, hs1, hs2]
      | next s2 =>
        cases hs3 : stepOnce code s2 with
        | ret v => simp only [threadedDeepLoop, centralLoop, hs1, hs2, hs3]
        | fault => simp only [threadedDeepLoop, centralLoop, hs1, hs2, hs3]
        | next s3 =>
          simp only [threadedDeepLoop, centralLoop, hs1, hs2, hs3]
          exact ih s3

/-- A value result is stable under extra fuel. -/
theorem centralLoop_value_mono (code : List Nat) (v : Int) :
    ∀ f s, centralLoop code f s = .value v →
      ∀ k, centralLoop code (f + k) s = .value v := by
  intro f
  induction f with
  | zero =>
    intro s h k
    exact absurd h (by simp [centralLoop])
  | succ f ih =>
    intro s h k
    rw [show f + 1 + k = (f + k) + 1 from by ring]
    cases hs : stepOnce code s with
    | ret w =>
      rw [centralLoop_ret f hs] at h
      rw [centralLoop_ret (f + k) hs]
      exact h
    | fault =>
      rw [centralLoop_fault f hs] at h
      exact absurd h (by simp)
    | next s1 =>
      rw [centralLoop_next f hs] at h
      rw [centralLoop_next (f + k) hs]
      exact ih s1 h k

/-- C1: for every program (and in particular every valid one) started from
the zero-initialized register state, the central, threaded-2 and threaded-3
engines return bit-identical results: one returns a value `v` for some fuel
iff the others do. -/
theorem c1_variants_equivalent (code : List Nat) (v : Int) :
    ((∃ f, run_central code f = .value v) ↔
      (∃ f, run_threaded code f = .value v)) ∧
    ((∃ f, run_central code f = .value v) ↔
      (∃ f, run_threaded_deep code f = .value v)) := by
  unfold run_central run_threaded run_threaded_deep
  constructor
  · constructor
    · rintro ⟨f, hf⟩
      refine ⟨f, ?_⟩
      rw [threadedLoop_eq_centralLoop, two_mul]
      exact centralLoop_value_mono code v f initState hf f
    · rintro ⟨f, hf⟩
      rw [threadedLoop_eq_centralLoop] at hf
      exact ⟨2 * f, hf⟩
  · constructor
    · rintro ⟨f, hf⟩
      refine ⟨f, ?_⟩
      rw [threadedDeepLoop_eq_centralLoop,
        show 3 * f = f + 2 * f from by ring]
      exact centralLoop_value_mono code v f initState hf (2 * f)
    · rintro ⟨f, hf⟩
      rw [threadedDeepLoop_eq_centralLoop] at hf
      exact ⟨3 * f, hf⟩

/-- C5: an instruction whose opcode field is outside 0–10 makes the step
return the sentinel, and each of the three engine loops terminate
immediately with result `-1`, for every program, position and register
state. -/
theorem c5_invalid_opcode (code : List Nat) (s : VMState) (w f : Nat)
    (hw : code[s.pc]? = some w) (hop : 11 ≤ decodeOp w) :
    stepOnce code s = .ret (-1) ∧
    centralLoop code (f + 1) s = .value (-1) ∧
    threadedLoop code (f + 1) s = .value (-1) ∧
    threadedDeepLoop code (f + 1) s = .value (-1) := by
  have hstep : stepOnce code s = .ret (-1) := by
    unfold stepOnce
    rw [hw]
    exact handle_invalid s.regs (s.pc + 1) _ _ _ hop
  exact ⟨hstep, centralLoop_ret f hstep, threadedLoop_ret f hstep,
    threadedDeepLoop_ret f hstep⟩

/-- Witness for C5: opcode 11 at pc 0 returns −1 on all engines. -/
theorem c5_invalid_opcode_witness :
    stepOnce [encode 11 0 0 0] initState = .ret (-1) ∧
    centralLoop [encode 11 0 0 0] 1 initState = .value (-1) ∧
    threadedLoop [encode 11 0 0 0] 1 initState = .value (-1) ∧
    threadedDeepLoop [encode 11 0 0 0] 1 initState = .value (-1) :=
  c5_invalid_opcode [encode 11 0 0 0] initState (encode 11 0 0 0) 0
    (by decide) (by decide)

/-- C6: with a zero divisor, DIV and MOD both store 0 into `registers[dst]`
(for any value `x` of `registers[a]`) and continue — neither is an error. -/
theorem c6_div_mod_by_zero (regs : List Int) (pc dst a b : Nat) (x : Int)
    (hdst : dst < regs.length) (hx : regs[a]? = some x)
    (hb : regs[b]? = some 0) :
    handle regs pc OP_DIV dst a b = .next ⟨regs.set dst 0, pc⟩ ∧
    handle regs pc OP_MOD dst a b = .next ⟨regs.set dst 0, pc⟩ ∧
    (regs.set dst 0)[dst]? = some 0 :=
  ⟨handle_div_zero pc hx hb hdst, handle_mod_zero pc hx hb hdst,
   List.getElem?_set_self hdst⟩

/-- Witness for C6 with `registers[a] = -7`. -/
theorem c6_div_mod_by_zero_witness :
    handle [-7, 0] 1 OP_DIV 0 0 1 = .next ⟨[0, 0], 1⟩ ∧
    handle [-7, 0] 1 OP_MOD 0 0 1 = .next ⟨[0, 0], 1⟩ := by
  have h := c6_div_mod_by_zero [-7, 0] 1 0 0 1 (-7) (by decide) (by decide)
    (by decide)
  exact ⟨h.1, h.2.1⟩

/-- C7: ADD, SUB, MUL, INC and DEC all compute through `wrap64` — reduction
modulo `2^64` into the signed 64-bit range — and continue execution (no
fault); incrementing `i64::MAX` yields `i64::MIN`. -/
theorem c7_wrapping_arithmetic (regs : List Int) (pc dst a b : Nat)
    (x y z : Int) (hdst : dst < regs.length) (hx : regs[a]? = some x)
    (hy : regs[b]? = some y) (hz : regs[dst]? = some z) :
    handle regs pc OP_ADD dst a b = .next ⟨regs.set dst (wrap64 (x + y)), pc⟩ ∧
    handle regs pc OP_SUB dst a b = .next ⟨regs.set dst (wrap64 (x - y)), pc⟩ ∧
    handle regs pc OP_MUL dst a b = .next ⟨regs.set dst (wrap64 (x * y)), pc⟩ ∧
    handle regs pc OP_INC dst a b = .next ⟨regs.set dst (wrap64 (z + 1)), pc⟩ ∧
    handle regs pc OP_DEC dst a b = .next ⟨regs.set dst (wrap64 (z - 1)), pc⟩ ∧
    (∀ u : Int, InI64 (wrap64 u) ∧ (2 ^ 64 : Int) ∣ (wrap64 u - u)) ∧
    wrap64 (2 ^ 63 - 1 + 1) = -(2 ^ 63) :=
  ⟨handle_add pc hx hy hdst, handle_sub pc hx hy hdst,
   handle_mul pc hx hy hdst, handle_inc pc a b hz hdst,
   handle_dec pc a b hz hdst,
   fun u => ⟨wrap64_mem u, wrap64_dvd_sub u⟩,
   by norm_num [wrap64]⟩

/-- Witness for C7 at `registers = [i64::MAX, 3]`: `INC` on `i64::MAX`
wraps to `i64::MIN`. -/
theorem c7_wrapping_arithmetic_witness :
    handle [9223372036854775807, 3] 1 OP_INC 0 0 1
      = .next ⟨[-9223372036854775808, 3], 1⟩ ∧
    handle [9223372036854775807, 3] 1 OP_ADD 0 0 1
      = .next ⟨[-9223372036854775806, 3], 1⟩ ∧
    InI64 (wrap64 5) := by
  have h := c7_wrapping_arithmetic [9223372036854775807, 3] 1 0 0 1
    9223372036854775807 3 9223372036854775807 (by decide) (by decide)
    (by decide) (by decide)
  refine ⟨?_, ?_, (h.2.2.2.2.2.1 5).1⟩
  · rw [h.2.2.2.1]
    decide
  · rw [h.1]
    decide

/-- C8: the pc passed to the effect is the fetch pc plus one; JMPNZ with a
non-zero `registers[dst]` sets the pc to the absolute decoded immediate,
with zero it continues at the pre-incremented pc, and a taken jump with
immediate 0 continues at instruction index 0. -/
theorem c8_jmpnz_absolute (code : List Nat) (s : VMState) (w dst a b : Nat)
    (x : Int) (hw : code[s.pc]? = some w) (hop : decodeOp w = OP_JMPNZ)
    (hdst : decodeDst w = dst) (ha : decodeA w = a) (hb : decodeB w = b)
    (hx : s.regs[dst]? = some x) :
    stepOnce code s
      = handle s.regs (s.pc + 1) (decodeOp w) (decodeDst w) (decodeA w)
          (decodeB w) ∧
    (x ≠ 0 → stepOnce code s = .next ⟨s.regs, (imm16 a b).toNat⟩) ∧
    (x = 0 → stepOnce code s = .next ⟨s.regs, s.pc + 1⟩) ∧
    (imm16 0 0).toNat = 0 := by
  have h1 : stepOnce code s
      = handle s.regs (s.pc + 1) (decodeOp w) (decodeDst w) (decodeA w)
          (decodeB w) := by
    unfold stepOnce
    rw [hw]
  refine ⟨h1, ?_, ?_, by decide⟩
  · intro hnz
    rw [h1, hop, hdst, ha, hb]
    exact handle_jmpnz_taken (s.pc + 1) a b hx hnz
  · intro hz
    rw [h1, hop, hdst, ha, hb]
    rw [hz] at hx
    exact handle_jmpnz_not_taken (s.pc + 1) a b hx

/-- Witness for C8: a taken `JMPNZ r0, 0` at pc 5 jumps to instruction 0. -/
theorem c8_jmpnz_absolute_witness :
    stepOnce [0, 0, 0, 0, 0, encode OP_JMPNZ 0 0 0] ⟨[1, 0], 5⟩
      = .next ⟨[1, 0], 0⟩ := by
  have h := c8_jmpnz_absolute [0, 0, 0, 0, 0, encode OP_JMPNZ 0 0 0]
    ⟨[1, 0], 5⟩ (encode OP_JMPNZ 0 0 0) 0 0 0 1 (by decide) (by decide)
    (by decide) (by decide) (by decide) (by decide)
  have h2 := h.2.1 (by decide)
  rw [h2]
  decide

/-- C10: MOV copies `registers[a]` into `registers[dst]`, leaves every other
register unchanged, does not terminate execution, and continues at the
already-incremented pc. -/
theorem c10_mov (regs : List Int) (pc dst a b : Nat) (x : Int)
    (hdst : dst < regs.length) (hx : regs[a]? = some x) :
    handle regs pc OP_MOV dst a b = .next ⟨regs.set dst x, pc⟩ ∧
    (regs.set dst x)[dst]? = some x ∧
    (∀ j, j ≠ dst → (regs.set dst x)[j]? = regs[j]?) :=
  ⟨handle_mov pc b hx hdst, List.getElem?_set_self hdst,
   fun _ hj => List.getElem?_set_ne (Ne.symm hj)⟩

/-- Witness for C10: `MOV r0, r1` on `[5, -3]`. -/
theorem c10_mov_witness :
    handle [5, -3] 1 OP_MOV 0 1 0 = .next ⟨[-3, -3], 1⟩ ∧
    ([5, -3].set 0 (-3 : Int))[1]? = [5, (-3 : Int)][1]? := by
  have h := c10_mov [5, -3] 1 0 1 0 (-3) (by decide) (by decide)
  exact ⟨h.1, h.2.2 1 (by decide)⟩

/-! ## C2: DIV/MOD are not total — `i64::MIN / -1` panics

The claim says DIV and MOD never raise an error for any pair of i64
register values.  The code only guards the `d != 0` case; Rust's `/` and
`%` on `i64::MIN` with divisor `-1` overflow and panic.  The program below
builds `i64::MIN` in `r0` through wrapping multiplication (which IS total),
puts `-1` in `r2`, and divides. -/

/-- C2: refuted — executing DIV with `registers[a] = i64::MIN` and
`registers[b] = -1` faults (Rust division overflow panic) on all three
engine variants, and likewise MOD; so execution does not always terminate
by HALT or by an unrecognized opcode. -/
theorem c2_div_mod_overflow_faults :
    run_central divOverflowProgram 8 = .fault ∧
    run_threaded divOverflowProgram 4 = .fault ∧
    run_threaded_deep divOverflowProgram 3 = .fault ∧
    run_central modOverflowProgram 8 = .fault := by
  decide

/-! ## The workload loop of `make_program`

The instructions at pc 3–9 form the loop body; pc 10 is the HALT.  One
iteration from the loop head (pc 3) with counter `c`, accumulator `acc` and
arbitrary scratch registers r3–r5 performs MOV, MUL, SUB, ADD, ADD, DEC,
JMPNZ — seven steps — and either jumps back to pc 3 or falls through to
pc 10. -/

/-- Congruent arguments give equal wraps. -/
theorem wrap64_congr {a b : Int} (h : (2 ^ 64 : Int) ∣ (a - b)) :
    wrap64 a = wrap64 b := by
  unfold wrap64
  have hm : a % 2 ^ 64 = b % 2 ^ 64 :=
    Int.modEq_iff_dvd.mpr (by simpa using dvd_neg.mpr h)
  rw [Int.add_emod a, Int.add_emod b, hm]

theorem wrap64_modEq (z : Int) : Int.ModEq (2 ^ 64) (wrap64 z) z :=
  Int.modEq_iff_dvd.mpr (by simpa using dvd_neg.mpr (wrap64_dvd_sub z))

/-- Fetch–decode of the instruction at the current pc, with its decoded
fields. -/
theorem stepOnce_eval (code : List Nat) (regs : List Int) (pc w op dst a b : Nat)
    (hw : code[pc]? = some w) (hop : decodeOp w = op) (hdst : decodeDst w = dst)
    (ha : decodeA w = a) (hb : decodeB w = b) :
    stepOnce code ⟨regs, pc⟩ = handle regs (pc + 1) op dst a b := by
  simp only [stepOnce, hw, hop, hdst, ha, hb]

theorem make_program_eq (n : Nat) : make_program n = workloadCode n := by
  unfold make_program workloadCode
  norm_num [encode, OP_LOADI, OP_MOV, OP_MUL, OP_SUB, OP_ADD, OP_DEC,
    OP_JMPNZ, OP_HALT]
  decide

/-- `wrap64` vanishes exactly on multiples of `2^64`. -/
theorem wrap64_eq_zero_iff (z : Int) : wrap64 z = 0 ↔ (2 ^ 64 : Int) ∣ z := by
  constructor
  · intro h
    have hd := wrap64_dvd_sub z
    rw [h] at hd
    simpa using dvd_neg.mpr hd
  · rintro ⟨t, ht⟩
    obtain ⟨s, hs⟩ := wrap64_dvd_sub z
    have hm := wrap64_mem z
    unfold InI64 at hm
    omega

/-- One full loop iteration of the workload program: seven central-loop
steps from the loop head. -/
theorem wloop_iter (N fuel : Nat) (c acc x3 x4 x5 : Int) :
    centralLoop (workloadCode N) (fuel + 7) (lh c acc x3 x4 x5)
      = centralLoop (workloadCode N) fuel
          ⟨[wrap64 (c - 1), wrap64 (acc + bodyF c), 1, c, wrap64 (c * c),
            bodyF c, 0, 0, 0, 0, 0, 0, 0, 0, 0, 0],
            if wrap64 (c - 1) = 0 then 10 else 3⟩ := by
  unfold lh
  have h1 : stepOnce (workloadCode N)
        ⟨[c, acc, 1, x3, x4, x5, 0, 0, 0, 0, 0, 0, 0, 0, 0, 0], 3⟩
      = .next ⟨[c, acc, 1, c, x4, x5, 0, 0, 0, 0, 0, 0, 0, 0, 0, 0], 4⟩ := by
    rw [stepOnce_eval (workloadCode N) _ 3 778 OP_MOV 3 0 0 rfl rfl rfl rfl rfl,
      handle_mov 4 0 rfl (by norm_num)]
    rfl
  have h2 : stepOnce (workloadCode N)
        ⟨[c, acc, 1, c, x4, x5, 0, 0, 0, 0, 0, 0, 0, 0, 0, 0], 4⟩
      = .next ⟨[c, acc, 1, c, wrap64 (c * c), x5,
          0, 0, 0, 0, 0, 0, 0, 0, 0, 0], 5⟩ := by
    rw [stepOnce_eval (workloadCode N) _ 4 50529284 OP_MUL 4 3 3 rfl rfl rfl
        rfl rfl,
      handle_mul 5 rfl rfl (by norm_num)]
    rfl
  have h3 : stepOnce (workloadCode N)
        ⟨[c, acc, 1, c, wrap64 (c * c), x5, 0, 0, 0, 0, 0, 0, 0, 0, 0, 0], 5⟩
      = .next ⟨[c, acc, 1, c, wrap64 (c * c), wrap64 (wrap64 (c * c) - c),
          0, 0, 0, 0, 0, 0, 0, 0, 0, 0], 6⟩ := by
    rw [stepOnce_eval (workloadCode N) _ 5 50595075 OP_SUB 5 4 3 rfl rfl rfl
        rfl rfl,
      handle_sub 6 rfl rfl (by norm_num)]
    rfl
  have h4 : stepOnce (workloadCode N)
        ⟨[c, acc, 1, c, wrap64 (c * c), wrap64 (wrap64 (c * c) - c),
          0, 0, 0, 0, 0, 0, 0, 0, 0, 0], 6⟩
      = .next ⟨[c, acc, 1, c, wrap64 (c * c), bodyF c,
          0, 0, 0, 0, 0, 0, 0, 0, 0, 0], 7⟩ := by
    rw [stepOnce_eval (workloadCode N) _ 6 33883394 OP_ADD 5 5 2 rfl rfl rfl
        rfl rfl,
      handle_add 7 rfl rfl (by norm_num)]
    rfl
  have h5 : stepOnce (workloadCode N)
        ⟨[c, acc, 1, c, wrap64 (c * c), bodyF c,
          0, 0, 0, 0, 0, 0, 0, 0, 0, 0], 7⟩
      = .next ⟨[c, wrap64 (acc + bodyF c), 1, c, wrap64 (c * c), bodyF c,
          0, 0, 0, 0, 0, 0, 0, 0, 0, 0], 8⟩ := by
    rw [stepOnce_eval (workloadCode N) _ 7 83951874 OP_ADD 1 1 5 rfl rfl rfl
        rfl rfl,
      handle_add 8 rfl rfl (by norm_num)]
    rfl
  have h6 : stepOnce (workloadCode N)
        ⟨[c, wrap64 (acc + bodyF c), 1, c, wrap64 (c * c), bodyF c,
          0, 0, 0, 0, 0, 0, 0, 0, 0, 0], 8⟩
      = .next ⟨[wrap64 (c - 1), wrap64 (acc + bodyF c), 1, c, wrap64 (c * c),
          bodyF c, 0, 0, 0, 0, 0, 0, 0, 0, 0, 0], 9⟩ := by
    rw [stepOnce_eval (workloadCode N) _ 8 8 OP_DEC 0 0 0 rfl rfl rfl rfl rfl,
      handle_dec 9 0 0 rfl (by norm_num)]
    rfl
  rw [show fuel + 7 = (fuel + 6) + 1 from rfl, centralLoop_next _ h1,
    show fuel + 6 = (fuel + 5) + 1 from rfl, centralLoop_next _ h2,
    show fuel + 5 = (fuel + 4) + 1 from rfl, centralLoop_next _ h3,
    show fuel + 4 = (fuel + 3) + 1 from rfl, centralLoop_next _ h4,
    show fuel + 3 = (fuel + 2) + 1 from rfl, centralLoop_next _ h5,
    show fuel + 2 = (fuel + 1) + 1 from rfl, centralLoop_next _ h6]
  by_cases hz : wrap64 (c - 1) = 0
  · have h7 : stepOnce (workloadCode N)
        ⟨[wrap64 (c - 1), wrap64 (acc + bodyF c), 1, c, wrap64 (c * c),
          bodyF c, 0, 0, 0, 0, 0, 0, 0, 0, 0, 0], 9⟩
        = .next ⟨[wrap64 (c - 1), wrap64 (acc + bodyF c), 1, c,
            wrap64 (c * c), bodyF c, 0, 0, 0, 0, 0, 0, 0, 0, 0, 0], 10⟩ := by
      rw [stepOnce_eval (workloadCode N) _ 9 196617 OP_JMPNZ 0 3 0 rfl rfl rfl
          rfl rfl]
      have hx : ([wrap64 (c - 1), wrap64 (acc + bodyF c), 1, c,
          wrap64 (c * c), bodyF c, 0, 0, 0, 0, 0, 0, 0, 0, 0, 0] :
            List Int)[0]? = some 0 := by
        rw [hz]
        rfl
      exact handle_jmpnz_not_taken 10 3 0 hx
    rw [centralLoop_next _ h7, if_pos hz]
  · have h7 : stepOnce (workloadCode N)
        ⟨[wrap64 (c - 1), wrap64 (acc + bodyF c), 1, c, wrap64 (c * c),
          bodyF c, 0, 0, 0, 0, 0, 0, 0, 0, 0, 0], 9⟩
        = .next ⟨[wrap64 (c - 1), wrap64 (acc + bodyF c), 1, c,
            wrap64 (c * c), bodyF c, 0, 0, 0, 0, 0, 0, 0, 0, 0, 0], 3⟩ := by
      rw [stepOnce_eval (workloadCode N) _ 9 196617 OP_JMPNZ 0 3 0 rfl rfl rfl
          rfl rfl]
      exact handle_jmpnz_taken 10 3 0 rfl hz
    rw [centralLoop_next _ h7, if_neg hz]

/-- The HALT step at pc 10 returns the accumulator r1. -/
theorem halt_step (N fuel : Nat) (r0 acc x3 x4 x5 : Int) :
    centralLoop (workloadCode N) (fuel + 1)
        ⟨[r0, acc, 1, x3, x4, x5, 0, 0, 0, 0, 0, 0, 0, 0, 0, 0], 10⟩
      = .value acc := by
  have h : stepOnce (workloadCode N)
      ⟨[r0, acc, 1, x3, x4, x5, 0, 0, 0, 0, 0, 0, 0, 0, 0, 0], 10⟩
      = .ret acc := by
    rw [stepOnce_eval (workloadCode N) _ 10 256 OP_HALT 1 0 0 rfl rfl rfl rfl
        rfl]
    exact handle_halt 11 0 0 rfl
  exact centralLoop_ret fuel h

/-! ## The workload sum and its closed form -/

theorem g_nonneg (j : Nat) : 0 ≤ g j := by
  unfold g
  have hj : (0 : Int) ≤ (j : Int) := Int.natCast_nonneg j
  nlinarith [sq_nonneg ((j : Int) - 1)]

theorem S_nonneg : ∀ n, 0 ≤ S n := by
  intro n
  induction n with
  | zero => simp [S]
  | succ n ih =>
    have := g_nonneg (n + 1)
    simp only [S]
    omega

theorem S_succ_ge (n : Nat) : g (n + 1) ≤ S (n + 1) := by
  have := S_nonneg n
  simp only [S]
  omega

theorem S_le (n : Nat) (h : n ≤ 65535) : S n ≤ (n : Int) * 4294836226 := by
  induction n with
  | zero => simp [S]
  | succ n ih =>
    have hb : g (n + 1) ≤ 4294836226 := by
      unfold g
      have h1 : ((n : Int) + 1) ≤ 65535 := by
        have : (n : Int) + 1 ≤ (65535 : Nat) := by exact_mod_cast h
        simpa using this
      have h0 : (0 : Int) ≤ (n : Int) + 1 := by positivity
      push_cast
      nlinarith
    have ih2 := ih (by omega)
    simp only [S]
    push_cast
    nlinarith

theorem Tsq_six : ∀ n, 6 * Tsq n = (n : Int) * ((n : Int) + 1) * (2 * (n : Int) + 1) := by
  intro n
  induction n with
  | zero => simp [Tsq]
  | succ n ih =>
    simp only [Tsq]
    push_cast
    ring_nf
    ring_nf at ih
    linarith

theorem Ulin_two : ∀ n, 2 * Ulin n = (n : Int) * ((n : Int) + 1) := by
  intro n
  induction n with
  | zero => simp [Ulin]
  | succ n ih =>
    simp only [Ulin]
    push_cast
    ring_nf
    ring_nf at ih
    linarith

theorem S_TU : ∀ n, S n = Tsq n - Ulin n + (n : Int) := by
  intro n
  induction n with
  | zero => simp [S, Tsq, Ulin]
  | succ n ih =>
    simp only [S, Tsq, Ulin, g]
    rw [ih]
    push_cast
    ring

theorem closedForm_eq_S (n : Nat) : closedForm n = S n := by
  unfold closedForm
  rw [← Tsq_six, ← Ulin_two, Int.mul_ediv_cancel_left _ (by norm_num),
    Int.mul_ediv_cancel_left _ (by norm_num), S_TU]

/-! ## Running the workload without overflow (1 ≤ N ≤ 65535) -/

theorem bodyF_no_overflow (k : Nat) (hk : k ≤ 65535) :
    bodyF (k : Int) = g k := by
  have hk1 : (k : Int) ≤ 65535 := by exact_mod_cast hk
  have hk0 : (0 : Int) ≤ (k : Int) := Int.natCast_nonneg k
  unfold bodyF g
  rw [wrap64_eq_self (show InI64 ((k : Int) * k) by
    unfold InI64; constructor <;> nlinarith)]
  rw [wrap64_eq_self (show InI64 ((k : Int) * k - k) by
    unfold InI64; constructor <;> nlinarith)]
  rw [wrap64_eq_self (show InI64 ((k : Int) * k - k + 1) by
    unfold InI64; constructor <;> nlinarith)]

set_option maxRecDepth 4000 in
/-- From the loop head with counter `k ∈ [1, 65535]` and a small enough
accumulator, `7k + 1` steps reach HALT with `acc + S k`. -/
theorem loop_run_nat : ∀ k, 1 ≤ k → k ≤ 65535 →
    ∀ (N : Nat) (acc x3 x4 x5 : Int), 0 ≤ acc → acc + S k < 2 ^ 63 →
      centralLoop (workloadCode N) (7 * k + 1) (lh (k : Int) acc x3 x4 x5)
        = .value (acc + S k) := by
  intro k
  induction k with
  | zero => omega
  | succ k ih =>
    intro _ hk2 N acc x3 x4 x5 hacc hbound
    have hk2i : ((k : Int) + 1) ≤ 65535 := by exact_mod_cast hk2
    have hk0 : (0 : Int) ≤ (k : Int) := Int.natCast_nonneg k
    have hgpos := g_nonneg (k + 1)
    have hgle := S_succ_ge k
    have hSnn := S_nonneg k
    have hcast : ((k + 1 : Nat) : Int) = (k : Int) + 1 := by push_cast; ring
    have hbody : bodyF ((k + 1 : Nat) : Int) = g (k + 1) :=
      bodyF_no_overflow (k + 1) hk2
    have hacc2 : wrap64 (acc + bodyF ((k + 1 : Nat) : Int))
        = acc + g (k + 1) := by
      rw [hbody]
      refine wrap64_eq_self ?_
      unfold InI64
      have : S (k + 1) = S k + g (k + 1) := rfl
      constructor <;> omega
    have hdec : wrap64 (((k + 1 : Nat) : Int) - 1) = (k : Int) := by
      rw [hcast, show (k : Int) + 1 - 1 = (k : Int) from by ring]
      refine wrap64_eq_self ?_
      unfold InI64
      constructor <;> nlinarith
    rw [show 7 * (k + 1) + 1 = (7 * k + 1) + 7 from by ring]
    rw [wloop_iter N (7 * k + 1) ((k + 1 : Nat) : Int) acc x3 x4 x5]
    rw [hacc2, hdec]
    by_cases hk0' : k = 0
    · subst hk0'
      rw [if_pos (by norm_num : ((0 : Nat) : Int) = 0)]
      rw [show (7 : Nat) * 0 + 1 = 0 + 1 from rfl]
      rw [halt_step]
      simp [S]
    · rw [if_neg (by exact_mod_cast hk0')]
      have hS1 : S (k + 1) = S k + g (k + 1) := rfl
      have hrun := ih (by omega) (by omega) N (acc + g (k + 1))
        ((k + 1 : Nat) : Int)
        (wrap64 (((k + 1 : Nat) : Int) * ((k + 1 : Nat) : Int)))
        (bodyF ((k + 1 : Nat) : Int)) (by omega) (by omega)
      unfold lh at hrun
      have hval : acc + S (k + 1) = acc + g (k + 1) + S k := by omega
      rw [hval]
      exact hrun

/-- The three LOADI steps that precede the loop: `r0 = N`, `r1 = 0`,
`r2 = 1`. -/
theorem init_steps (N : Nat) (hN : N < 65536) (fuel : Nat) :
    centralLoop (workloadCode N) (fuel + 3) initState
      = centralLoop (workloadCode N) fuel (lh (N : Int) 0 0 0 0) := by
  have hlo : N &&& 0xFF < 256 := by
    rw [mask255_eq_mod]
    omega
  have hhi : (N >>> 8) &&& 0xFF < 256 := by
    rw [mask255_eq_mod]
    omega
  have him : imm16 (N &&& 0xFF) ((N >>> 8) &&& 0xFF) = (N : Int) := by
    unfold imm16
    rw [lor_shl_eq_add _ _ 8 (by rw [mask255_eq_mod] at hlo ⊢; omega)]
    rw [mask255_eq_mod, mask255_eq_mod, Nat.shiftRight_eq_div_pow]
    norm_num
    have harith : N % 256 + N / 256 % 256 * 256 = N := by omega
    exact_mod_cast congrArg (Nat.cast : Nat → Int) harith
  have h1 : stepOnce (workloadCode N) initState
      = .next ⟨[(N : Int), 0, 0, 0, 0, 0, 0, 0, 0, 0, 0, 0, 0, 0, 0, 0], 1⟩ := by
    unfold initState
    rw [stepOnce_eval (workloadCode N) (List.replicate NREGS 0) 0 _ OP_LOADI 0
        (N &&& 0xFF) ((N >>> 8) &&& 0xFF) rfl
        (decodeOp_encode OP_LOADI 0 _ _ (by decide) (by decide) hlo hhi)
        (decodeDst_encode OP_LOADI 0 _ _ (by decide) (by decide) hlo hhi)
        (decodeA_encode OP_LOADI 0 _ _ (by decide) (by decide) hlo hhi)
        (decodeB_encode OP_LOADI 0 _ _ (by decide) (by decide) hlo hhi)]
    rw [handle_loadi 1 _ _ (by simp [NREGS])]
    rw [him]
    rfl
  have h2 : stepOnce (workloadCode N)
        ⟨[(N : Int), 0, 0, 0, 0, 0, 0, 0, 0, 0, 0, 0, 0, 0, 0, 0], 1⟩
      = .next ⟨[(N : Int), 0, 0, 0, 0, 0, 0, 0, 0, 0, 0, 0, 0, 0, 0, 0], 2⟩ := by
    rw [stepOnce_eval (workloadCode N) _ 1 257 OP_LOADI 1 0 0 rfl rfl rfl rfl
        rfl,
      handle_loadi 2 0 0 (by norm_num)]
    rfl
  have h3 : stepOnce (workloadCode N)
        ⟨[(N : Int), 0, 0, 0, 0, 0, 0, 0, 0, 0, 0, 0, 0, 0, 0, 0], 2⟩
      = .next ⟨[(N : Int), 0, 1, 0, 0, 0, 0, 0, 0, 0, 0, 0, 0, 0, 0, 0], 3⟩ := by
    rw [stepOnce_eval (workloadCode N) _ 2 66049 OP_LOADI 2 1 0 rfl rfl rfl rfl
        rfl,
      handle_loadi 3 1 0 (by norm_num)]
    rfl
  unfold lh
  rw [show fuel + 3 = (fuel + 2) + 1 from rfl, centralLoop_next _ h1,
    show fuel + 2 = (fuel + 1) + 1 from rfl, centralLoop_next _ h2,
    centralLoop_next _ h3]

/-- C3: for `1 ≤ N < 2^16`, every engine variant runs `make_program N` to
the value `N(N+1)(2N+1)/6 − N(N+1)/2 + N`; for `N = 1000` that value is
333334000. -/
theorem c3_closed_form (N : Nat) (h1 : 1 ≤ N) (h2 : N < 65536) :
    run_central (make_program N) (7 * N + 4) = .value (closedForm N) ∧
    run_threaded (make_program N) (7 * N + 4) = .value (closedForm N) ∧
    run_threaded_deep (make_program N) (7 * N + 4) = .value (closedForm N) ∧
    closedForm 1000 = 333334000 := by
  have hN65535 : N ≤ 65535 := by omega
  have hNi : (N : Int) ≤ 65535 := by exact_mod_cast hN65535
  have hS_lt : S N < 2 ^ 63 := by
    have hle := S_le N hN65535
    nlinarith
  have hc : run_central (make_program N) (7 * N + 4) = .value (S N) := by
    unfold run_central
    rw [make_program_eq]
    rw [show 7 * N + 4 = (7 * N + 1) + 3 from by ring]
    rw [init_steps N h2 (7 * N + 1)]
    have hrun := loop_run_nat N h1 hN65535 N 0 0 0 0 le_rfl (by omega)
    simpa using hrun
  have hcv : run_central (make_program N) (7 * N + 4)
      = .value (closedForm N) := by
    rw [closedForm_eq_S]
    exact hc
  refine ⟨hcv, ?_, ?_, by decide⟩
  · unfold run_threaded
    rw [threadedLoop_eq_centralLoop, two_mul, closedForm_eq_S]
    exact centralLoop_value_mono (make_program N) (S N) (7 * N + 4) initState
      hc (7 * N + 4)
  · unfold run_threaded_deep
    rw [threadedDeepLoop_eq_centralLoop,
      show 3 * (7 * N + 4) = (7 * N + 4) + 2 * (7 * N + 4) from by ring,
      closedForm_eq_S]
    exact centralLoop_value_mono (make_program N) (S N) (7 * N + 4) initState
      hc (2 * (7 * N + 4))

/-- Witness for C3 at `N = 3`: 25 steps of fuel, result `1 + 3 + 7 = 11`. -/
theorem c3_closed_form_witness :
    (1 : Nat) ≤ 3 ∧ (3 : Nat) < 65536 ∧
    run_central (make_program 3) 25 = .value (closedForm 3) ∧
    run_threaded (make_program 3) 25 = .value (closedForm 3) ∧
    closedForm 3 = 11 := by
  have h := c3_closed_form 3 (by decide) (by decide)
  exact ⟨by decide, by decide, h.1, h.2.1, by decide⟩

/-! ## The N = 0 boundary: the loop is a do-while

`make_program 0` loads 0 into the counter, but the loop body runs before
the JMPNZ check: DEC wraps the counter to −1, the guard fires, and the loop
runs `2^64` iterations until the counter wraps back to 0.  The accumulator,
summed with wrapping, ends at exactly 0. -/

theorem wrap64_sub_one_congr (z : Int) :
    wrap64 (wrap64 z - 1) = wrap64 (z - 1) := by
  refine wrap64_congr ?_
  obtain ⟨t, ht⟩ := wrap64_dvd_sub z
  exact ⟨t, by linarith⟩

theorem wrap64_nat_ne_zero (k : Nat) (h1 : 1 ≤ k) (h2 : k < 2 ^ 64) :
    wrap64 (k : Int) ≠ 0 := by
  intro h
  rw [wrap64_eq_zero_iff] at h
  obtain ⟨t, ht⟩ := h
  have h2i : (k : Int) < 2 ^ 64 := by exact_mod_cast h2
  have h1i : (1 : Int) ≤ (k : Int) := by exact_mod_cast h1
  norm_num at h2i
  rw [show ((2:Int) ^ 64) = 18446744073709551616 from by norm_num] at ht
  omega

/-- From the loop head with counter `wrap64 k` (1 ≤ k ≤ 2^64), `7k + 1`
steps reach HALT with accumulator `wIter k acc` — full wrapping, no
overflow assumptions. -/
theorem wloop_run : ∀ k, 1 ≤ k → k ≤ 2 ^ 64 → ∀ acc x3 x4 x5 : Int,
    centralLoop (workloadCode 0) (7 * k + 1)
        (lh (wrap64 (k : Int)) acc x3 x4 x5)
      = .value (wIter k acc) := by
  intro k
  induction k with
  | zero => omega
  | succ k ih =>
    intro _ hk2 acc x3 x4 x5
    have hcnt : wrap64 (wrap64 ((k + 1 : Nat) : Int) - 1)
        = wrap64 ((k : Nat) : Int) := by
      rw [wrap64_sub_one_congr]
      congr 1
      push_cast
      ring
    rw [show 7 * (k + 1) + 1 = (7 * k + 1) + 7 from by ring]
    rw [wloop_iter 0 (7 * k + 1) (wrap64 ((k + 1 : Nat) : Int)) acc x3 x4 x5]
    rw [hcnt]
    by_cases hk0 : k = 0
    · subst hk0
      have hz : wrap64 ((0 : Nat) : Int) = 0 := by
        norm_num [wrap64]
      rw [if_pos hz, show 7 * 0 + 1 = 0 + 1 from rfl, halt_step]
      simp [wIter]
    · have hne : wrap64 ((k : Nat) : Int) ≠ 0 :=
        wrap64_nat_ne_zero k (by omega) (by omega)
      rw [if_neg hne]
      have hrun := ih (by omega) (by omega)
        (wrap64 (acc + bodyF (wrap64 ((k + 1 : Nat) : Int))))
        (wrap64 ((k + 1 : Nat) : Int))
        (wrap64 (wrap64 ((k + 1 : Nat) : Int) * wrap64 ((k + 1 : Nat) : Int)))
        (bodyF (wrap64 ((k + 1 : Nat) : Int)))
      unfold lh at hrun
      have hval : wIter (k + 1) acc
          = wIter k (wrap64 (acc + bodyF (wrap64 ((k + 1 : Nat) : Int)))) := rfl
      rw [hval]
      exact hrun

/-- `bodyF` at a wrapped counter is congruent to `i² − i + 1` mod `2^64`. -/
theorem bodyF_modEq (j : Nat) :
    Int.ModEq (2 ^ 64) (bodyF (wrap64 (j : Int))) (g j) := by
  unfold bodyF g
  have hj := wrap64_modEq (j : Int)
  have h1 : Int.ModEq (2 ^ 64)
      (wrap64 (wrap64 (j : Int) * wrap64 (j : Int))) ((j : Int) * j) :=
    (wrap64_modEq _).trans (hj.mul hj)
  have h2 : Int.ModEq (2 ^ 64)
      (wrap64 (wrap64 (wrap64 (j : Int) * wrap64 (j : Int)) - wrap64 (j : Int)))
      ((j : Int) * j - j) :=
    (wrap64_modEq _).trans (h1.sub hj)
  exact (wrap64_modEq _).trans (h2.add (Int.ModEq.refl 1))

theorem wIter_modEq : ∀ k (acc : Int),
    Int.ModEq (2 ^ 64) (wIter k acc) (acc + S k) := by
  intro k
  induction k with
  | zero =>
    intro acc
    simp [wIter, S]
  | succ k ih =>
    intro acc
    have h1 : Int.ModEq (2 ^ 64)
        (wrap64 (acc + bodyF (wrap64 ((k + 1 : Nat) : Int))))
        (acc + g (k + 1)) :=
      (wrap64_modEq _).trans ((Int.ModEq.refl acc).add (bodyF_modEq (k + 1)))
    have h2 := ih (wrap64 (acc + bodyF (wrap64 ((k + 1 : Nat) : Int))))
    have h3 : Int.ModEq (2 ^ 64)
        (wrap64 (acc + bodyF (wrap64 ((k + 1 : Nat) : Int))) + S k)
        (acc + g (k + 1) + S k) := h1.add (Int.ModEq.refl (S k))
    have h4 : (acc + g (k + 1) + S k) = acc + S (k + 1) := by
      have : S (k + 1) = S k + g (k + 1) := rfl
      omega
    have h5 : wIter (k + 1) acc
        = wIter k (wrap64 (acc + bodyF (wrap64 ((k + 1 : Nat) : Int)))) := rfl
    rw [h5, ← h4]
    exact h2.trans h3

theorem wIter_mem : ∀ k (acc : Int), 1 ≤ k → InI64 (wIter k acc) := by
  intro k
  induction k with
  | zero => omega
  | succ k ih =>
    intro acc _
    by_cases hk : k = 0
    · subst hk
      exact wrap64_mem _
    · exact ih _ (by omega)

/-- The wrapped workload sum over a full `2^64`-cycle vanishes mod `2^64`:
`3·S(2^64) = 2^64·(2^128 + 2)` and `3 ∣ 2^128 + 2`. -/
theorem S_full_cycle_dvd : (2 ^ 64 : Int) ∣ S (2 ^ 64) := by
  have hT := Tsq_six (2 ^ 64)
  have hU := Ulin_two (2 ^ 64)
  have hS := S_TU (2 ^ 64)
  refine ⟨113427455640312821154458202477256070486, ?_⟩
  have h6 : 6 * S (2 ^ 64)
      = 6 * ((2 ^ 64 : Int) * 113427455640312821154458202477256070486) := by
    rw [hS]
    have : (6 : Int) * (Tsq (2 ^ 64) - Ulin (2 ^ 64) + ((2 ^ 64 : Nat) : Int))
        = 6 * Tsq (2 ^ 64) - 3 * (2 * Ulin (2 ^ 64))
            + 6 * ((2 ^ 64 : Nat) : Int) := by ring
    rw [this, hT, hU]
    push_cast
  exact Int.eq_of_mul_eq_mul_left (by norm_num) h6

theorem wIter_full_cycle_zero : wIter (2 ^ 64) 0 = 0 := by
  have hm := wIter_mem (2 ^ 64) 0 (by norm_num)
  have hc := wIter_modEq (2 ^ 64) 0
  have hdvd : (2 ^ 64 : Int) ∣ wIter (2 ^ 64) 0 := by
    have h0 : Int.ModEq (2 ^ 64) (0 + S (2 ^ 64)) 0 := by
      rw [Int.modEq_zero_iff_dvd]
      simpa using S_full_cycle_dvd
    exact Int.modEq_zero_iff_dvd.mp (hc.trans h0)
  obtain ⟨t, ht⟩ := hdvd
  unfold InI64 at hm
  rw [show ((2:Int) ^ 64) = 18446744073709551616 from by norm_num] at ht
  rw [show ((2:Int) ^ 63) = 9223372036854775808 from by norm_num] at hm
  omega

/-- C4, counterexample: the claim says the loop guard never triggers for
`N = 0`, so HALT would be reached directly (11 instructions: 3 LOADIs, one
loop body of 7, HALT).  In fact even 100 steps have not halted — the DEC
runs before the jump-check, wraps the counter to −1, and the guard fires. -/
theorem c4_counterexample :
    run_central (make_program 0) 11 = .timeout ∧
    run_central (make_program 0) 100 = .timeout := by
  decide

/-- C4, amended: for `N = 0` the guard does trigger (the counter is
decremented to −1 before the first jump-check); the loop runs `2^64`
iterations until the counter wraps back to 0, and the wrapped accumulator
ends at exactly 0, so the engine returns 0 — after `7·2^64 + 4` steps, not
immediately. -/
theorem c4_zero_loops_full_cycle :
    run_central (make_program 0) (7 * 2 ^ 64 + 4) = .value 0 := by
  unfold run_central
  rw [make_program_eq]
  rw [show 7 * 2 ^ 64 + 4 = (7 * 2 ^ 64 + 1) + 3 from by ring]
  rw [init_steps 0 (by norm_num) (7 * 2 ^ 64 + 1)]
  rw [show ((0 : Nat) : Int) = wrap64 (((2 ^ 64 : Nat)) : Int) from by
    push_cast
    norm_num [wrap64]]
  have hrun := wloop_run (2 ^ 64) (by norm_num) le_rfl 0 0 0 0
  rw [wIter_full_cycle_zero] at hrun
  exact hrun

/-- Witness for C9 at a concrete instruction. -/
theorem c9_codec_roundtrip_witness :
    decodeOp (encode 9 5 3 200) = 9 ∧
    decodeDst (encode 9 5 3 200) = 5 ∧
    decodeA (encode 9 5 3 200) = 3 ∧
    decodeB (encode 9 5 3 200) = 200 ∧
    imm16 3 200 = (3 : Int) + 256 * 200 :=
  c9_codec_roundtrip 9 5 3 200 (by decide) (by decide) (by decide) (by decide)
